import Mathlib

/-!
Verification of the `brightsparc/segment` event-dispatch server.

The Go source is shallowly embedded: time values (`time.Time`) are natural
numbers with `0` standing for the zero value; Go `error` results are
`Option GoErr` with `none` for `nil`; `map[string]interface{}` attribute maps
are `Option (List (String × String))`, `none` standing for a nil map — the
dispatcher never inspects map contents, only assigns whole maps, so the value
representation is opaque to every verified operation.  Destination `Send`
implementations are pure functions `SegmentEvent → Option GoErr`; the
dispatcher's fan-out loop is additionally instrumented to return the ordered
trace of (destination index, event) invocations that the loop performs, so
that "destination never invoked" claims become statements about the trace.
-/

/-- Go `error` values, modelled by their message string; `Option GoErr` is a
Go error result (`none` = `nil`). -/
abbrev GoErr := String

/-- A Go `map[string]interface{}` field: `none` is the nil map; values are
kept opaque (serialized form) because the dispatcher never reads them. -/
abbrev AttrMap := Option (List (String × String))

/-- `SegmentMessage` from segment.go: fields common to all event kinds.
Times are `Nat` (0 = Go zero time). -/
structure SegmentMessage where
  messageId : String := ""
  timestamp : Nat := 0
  sentAt : Nat := 0
  projectId : String := ""
  type : String := ""
  context : AttrMap := none
  properties : AttrMap := none
  traits : AttrMap := none
  integrations : AttrMap := none
  anonymousId : String := ""
  userId : String := ""
  event : String := ""
  category : String := ""
  name : String := ""
  deriving Repr, DecidableEq

/-- `SegmentEvent` from segment.go: a single message plus the write key
(Go embeds `SegmentMessage`; here the embedding is `extends`). -/
structure SegmentEvent extends SegmentMessage where
  writeKey : String := ""
  deriving Repr, DecidableEq

/-- `SegmentBatch` from segment.go: a batch of messages with an optional
shared context. -/
structure SegmentBatch where
  messageId : String := ""
  timestamp : Nat := 0
  sentAt : Nat := 0
  context : AttrMap := none
  messages : List SegmentMessage := []
  deriving Repr, DecidableEq

/-- A destination's `Send` method as a pure function: the Go interface method
`Send(ctx, message) error` for a fixed context/schedule. -/
abbrev DestFn := SegmentEvent → Option GoErr

/-- The write-key → project-id lookup injected into `NewSegment`. -/
abbrev ProjectId := String → String

namespace Segment

/-- The mutation `Segment.send` performs on the event before the fan-out
loop (segment.go): default `Timestamp` to `time.Now()` when zero, always
overwrite `SentAt` with `time.Now()`, fill `MessageId` with a fresh
`uuid.NewRandom().String()` when empty.  The two `time.Now()` readings are
the parameters `now1` and `now2`; the generated uuid is the parameter
`fresh`. -/
def sendNormalize (now1 now2 : Nat) (fresh : String) (m : SegmentEvent) : SegmentEvent :=
  let m1 := if m.timestamp = 0 then { m with timestamp := now1 } else m
  let m2 := { m1 with sentAt := now2 }
  if m2.messageId = "" then { m2 with messageId := fresh } else m2

/-- The fan-out loop of `Segment.send` (segment.go):
`for _, dest := range s.destinations { if err := dest.Send(ctx, m); err != nil { return err } }`.
Returns the loop's result together with the trace of `Send` invocations the
loop performs, each as (destination index, event passed); `k` is the index of
the first destination in `dests`. -/
def fanoutFrom (dests : List DestFn) (m : SegmentEvent) (k : Nat) :
    Option GoErr × List (Nat × SegmentEvent) :=
  match dests with
  | [] => (none, [])
  | f :: rest =>
    match f m with
    | some e => (some e, [(k, m)])
    | none =>
      let r := fanoutFrom rest m (k + 1)
      (r.1, (k, m) :: r.2)

/-- `Segment.send` (segment.go): normalize the event, then invoke each
destination's `Send` in registration order, returning the first non-nil
error.  The second component is the invocation trace. -/
def send (dests : List DestFn) (now1 now2 : Nat) (fresh : String) (m : SegmentEvent) :
    Option GoErr × List (Nat × SegmentEvent) :=
  fanoutFrom dests (sendNormalize now1 now2 fresh m) 0

end Segment

namespace Segment

lemma fanoutFrom_all_nil (dests : List DestFn) (m : SegmentEvent) (k : Nat)
    (h : ∀ f ∈ dests, f m = none) :
    fanoutFrom dests m k =
      (none, (List.range dests.length).map (fun j => (k + j, m))) := by
  induction dests generalizing k with
  | nil => simp [fanoutFrom]
  | cons f rest ih =>
    have hf : f m = none := h f (List.mem_cons_self f rest)
    have hrest : ∀ g ∈ rest, g m = none := fun g hg => h g (List.mem_cons_of_mem f hg)
    have harg : ((fun j => (k + j, m)) ∘ Nat.succ) = fun j => (k + 1 + j, m) := by
      funext j
      simp only [Function.comp_apply, Prod.mk.injEq]
      exact ⟨by omega, trivial⟩
    simp [fanoutFrom, hf, ih (k + 1) hrest, List.range_succ_eq_map, harg]

lemma fanoutFrom_append_fail (pre : List DestFn) (f : DestFn) (post : List DestFn)
    (m : SegmentEvent) (k : Nat) (e : GoErr)
    (hpre : ∀ g ∈ pre, g m = none) (hf : f m = some e) :
    fanoutFrom (pre ++ f :: post) m k =
      (some e, (List.range (pre.length + 1)).map (fun j => (k + j, m))) := by
  induction pre generalizing k with
  | nil => simp [fanoutFrom, hf, List.range_succ]
  | cons g rest ih =>
    have hg : g m = none := hpre g (List.mem_cons_self g rest)
    have hrest : ∀ g' ∈ rest, g' m = none := fun g' hg' => hpre g' (List.mem_cons_of_mem g hg')
    have harg : ((fun j => (k + j, m)) ∘ Nat.succ) = fun j => (k + 1 + j, m) := by
      funext j
      simp only [Function.comp_apply, Prod.mk.injEq]
      exact ⟨by omega, trivial⟩
    simp [List.cons_append, fanoutFrom, hg, ih (k + 1) hrest, List.range_succ_eq_map, harg]
    intro a _
    omega

lemma fanoutFrom_trace_event (dests : List DestFn) (m : SegmentEvent) (k : Nat) :
    ∀ p ∈ (fanoutFrom dests m k).2, p.2 = m := by
  induction dests generalizing k with
  | nil => simp [fanoutFrom]
  | cons f rest ih =>
    intro p hp
    simp only [fanoutFrom] at hp
    cases hfm : f m with
    | some e => simp [hfm] at hp; simp [hp]
    | none =>
      simp only [hfm] at hp
      rcases List.mem_cons.mp hp with h | h
      · simp [h]
      · exact ih (k + 1) p h

end Segment

/-- C1: `Segment.send` invokes the configured destinations' `Send` one by one
in registration order; the first destination returning a non-nil error aborts
the iteration, that error is returned verbatim, and no later destination's
`Send` is invoked for that event: with destinations `pre ++ f :: post` where
every member of `pre` succeeds and `f` fails with `e`, the result is exactly
`e` and the invocation trace is exactly the indices `0 .. pre.length` in
order, each paired with the normalized event — no index from `post` occurs. -/
theorem segment_send_short_circuit (pre : List DestFn) (f : DestFn) (post : List DestFn)
    (now1 now2 : Nat) (fresh : String) (m : SegmentEvent) (e : GoErr)
    (hpre : ∀ g ∈ pre, g (Segment.sendNormalize now1 now2 fresh m) = none)
    (hf : f (Segment.sendNormalize now1 now2 fresh m) = some e) :
    Segment.send (pre ++ f :: post) now1 now2 fresh m =
      (some e, (List.range (pre.length + 1)).map
        (fun j => (j, Segment.sendNormalize now1 now2 fresh m))) := by
  unfold Segment.send
  rw [Segment.fanoutFrom_append_fail pre f post _ 0 e hpre hf]
  simp

/-- Witness for C1: two destinations where the first succeeds and the second
fails with "boom"; a third destination (which would fail with "later") is
never invoked and the trace is exactly [0, 1]. -/
theorem segment_send_short_circuit_witness :
    Segment.send [fun _ => none, fun _ => some "boom", fun _ => some "later"] 5 6 "u" {} =
      (some "boom", [(0, Segment.sendNormalize 5 6 "u" {}), (1, Segment.sendNormalize 5 6 "u" {})]) := by
  have h := segment_send_short_circuit [fun _ => none] (fun _ => some "boom")
    [fun _ => some "later"] 5 6 "u" {} "boom"
    (by intro g hg; simp at hg; subst hg; rfl) rfl
  simpa [List.range_succ] using h

/-- C5: before any destination is invoked, `Segment.send` fills the message
id with the freshly generated identifier exactly when it is empty, sets the
client timestamp to the current time exactly when it is the zero value, and
always overwrites the dispatch timestamp `SentAt` with the current time
regardless of the caller-supplied value; all destinations then receive this
normalized event. -/
theorem segment_send_normalizes (now1 now2 : Nat) (fresh : String) (m : SegmentEvent)
    (dests : List DestFn) :
    ((m.messageId = "" → (Segment.sendNormalize now1 now2 fresh m).messageId = fresh) ∧
     (m.messageId ≠ "" → (Segment.sendNormalize now1 now2 fresh m).messageId = m.messageId) ∧
     (m.timestamp = 0 → (Segment.sendNormalize now1 now2 fresh m).timestamp = now1) ∧
     (m.timestamp ≠ 0 → (Segment.sendNormalize now1 now2 fresh m).timestamp = m.timestamp) ∧
     (Segment.sendNormalize now1 now2 fresh m).sentAt = now2) ∧
    ∀ p ∈ (Segment.send dests now1 now2 fresh m).2,
      p.2 = Segment.sendNormalize now1 now2 fresh m := by
  constructor
  · unfold Segment.sendNormalize
    by_cases ht : m.timestamp = 0 <;> by_cases hid : m.messageId = "" <;>
      simp [ht, hid]
  · exact Segment.fanoutFrom_trace_event dests _ 0

/-- Witness for C5: an event with empty id, zero timestamp and a stale
`SentAt` of 99 is normalized to id "uuid-1", timestamp 10, `SentAt` 20. -/
theorem segment_send_normalizes_witness :
    (Segment.sendNormalize 10 20 "uuid-1"
        { messageId := "", timestamp := 0, sentAt := 99 }).messageId = "uuid-1" ∧
    (Segment.sendNormalize 10 20 "uuid-1"
        { messageId := "", timestamp := 0, sentAt := 99 }).timestamp = 10 ∧
    (Segment.sendNormalize 10 20 "uuid-1"
        { messageId := "", timestamp := 0, sentAt := 99 }).sentAt = 20 := by
  have h := (segment_send_normalizes 10 20 "uuid-1"
    { messageId := "", timestamp := 0, sentAt := 99 } []).1
  exact ⟨h.1 rfl, h.2.2.1 rfl, h.2.2.2.2⟩

/-- HTTP outcomes written by the handlers in segment.go (the response body is
a fixed success/failure JSON document, omitted here). -/
inductive HttpStatus where
  | ok
  | badRequest
  | unauthorized
  | internalError
  deriving Repr, DecidableEq

/-- 4xx statuses: the client-side errors among the handlers' outcomes. -/
def HttpStatus.isClientError : HttpStatus → Bool
  | .badRequest => true
  | .unauthorized => true
  | _ => false

namespace Segment

/-- The event `handleBatch` (segment.go) constructs for one batch message:
`event := SegmentEvent{WriteKey: writeKey, SegmentMessage: m}` followed by
`event.ProjectId = projectId` and `event.Context = batch.Context`. -/
def mkBatchEvent (writeKey projectId : String) (batchContext : AttrMap)
    (m : SegmentMessage) : SegmentEvent :=
  { toSegmentMessage := { m with projectId := projectId, context := batchContext },
    writeKey := writeKey }

/-- The per-message loop of `handleBatch` (segment.go): build each event with
the batch's context and the resolved project id, dispatch it with `send`, and
abort with an internal server error on the first send failure.  `now1`,
`now2` and `fresh` give the clock readings and generated uuid for the
message at each position (indexed from `idx`); the second component is the
concatenated destination-invocation trace. -/
def batchLoop (dests : List DestFn) (writeKey projectId : String) (batchContext : AttrMap)
    (now1 now2 : Nat → Nat) (fresh : Nat → String) (idx : Nat) :
    List SegmentMessage → HttpStatus × List (Nat × SegmentEvent)
  | [] => (.ok, [])
  | m :: rest =>
    let r := send dests (now1 idx) (now2 idx) (fresh idx)
      (mkBatchEvent writeKey projectId batchContext m)
    match r.1 with
    | some _ => (.internalError, r.2)
    | none =>
      let rr := batchLoop dests writeKey projectId batchContext now1 now2 fresh (idx + 1) rest
      (rr.1, r.2 ++ rr.2)

/-- `handleBatch` (segment.go) after wire decoding (decoding is an external
collaborator; a decode failure never reaches this code): `auth` is the Basic
auth write key (`none` when absent, rejected 401); an empty resolved project
id is rejected 401 before the dispatch loop runs. -/
def handleBatch (pid : ProjectId) (dests : List DestFn) (auth : Option String)
    (batch : SegmentBatch) (now1 now2 : Nat → Nat) (fresh : Nat → String) :
    HttpStatus × List (Nat × SegmentEvent) :=
  match auth with
  | none => (.unauthorized, [])
  | some writeKey =>
    let projectId := pid writeKey
    if projectId = "" then (.unauthorized, [])
    else batchLoop dests writeKey projectId batch.context now1 now2 fresh 0 batch.messages

/-- `handleEvent` (segment.go) after wire decoding: `event` is the decoded
single event; its project id is set from the injected lookup and an empty
result is rejected 400 before `send` is called. -/
def handleEvent (pid : ProjectId) (dests : List DestFn) (event : SegmentEvent)
    (now1 now2 : Nat) (fresh : String) : HttpStatus × List (Nat × SegmentEvent) :=
  let ev := { event with projectId := pid event.writeKey }
  if ev.projectId = "" then (.badRequest, [])
  else
    let r := send dests now1 now2 fresh ev
    match r.1 with
    | some _ => (.internalError, r.2)
    | none => (.ok, r.2)

lemma sendNormalize_context (now1 now2 : Nat) (fresh : String) (m : SegmentEvent) :
    (sendNormalize now1 now2 fresh m).context = m.context := by
  unfold sendNormalize
  by_cases ht : m.timestamp = 0 <;> by_cases hid : m.messageId = "" <;> simp [ht, hid]

lemma send_trace_context (dests : List DestFn) (now1 now2 : Nat) (fresh : String)
    (m : SegmentEvent) : ∀ p ∈ (send dests now1 now2 fresh m).2, p.2.context = m.context := by
  intro p hp
  have he := fanoutFrom_trace_event dests (sendNormalize now1 now2 fresh m) 0 p hp
  rw [he, sendNormalize_context]

lemma batchLoop_trace_context (dests : List DestFn) (writeKey projectId : String)
    (batchContext : AttrMap) (now1 now2 : Nat → Nat) (fresh : Nat → String) (idx : Nat)
    (msgs : List SegmentMessage) :
    ∀ p ∈ (batchLoop dests writeKey projectId batchContext now1 now2 fresh idx msgs).2,
      p.2.context = batchContext := by
  induction msgs generalizing idx with
  | nil => simp [batchLoop]
  | cons m rest ih =>
    intro p hp
    simp only [batchLoop] at hp
    have hctx : (mkBatchEvent writeKey projectId batchContext m).context = batchContext := rfl
    cases hr : (send dests (now1 idx) (now2 idx) (fresh idx)
        (mkBatchEvent writeKey projectId batchContext m)).1 with
    | some e =>
      simp only [hr] at hp
      have := send_trace_context dests (now1 idx) (now2 idx) (fresh idx)
        (mkBatchEvent writeKey projectId batchContext m) p hp
      rw [this, hctx]
    | none =>
      simp only [hr] at hp
      rcases List.mem_append.mp hp with h | h
      · have := send_trace_context dests (now1 idx) (now2 idx) (fresh idx)
          (mkBatchEvent writeKey projectId batchContext m) p h
        rw [this, hctx]
      · exact ih (idx + 1) p h

end Segment

/-- C7: when an inbound batch carries a shared context map, every event the
batch handler passes to any destination's `Send` carries exactly that
batch-level context (the event's own context is overwritten, not merged):
every entry of the dispatch trace of `handleBatch` has context equal to the
batch's shared context. -/
theorem segment_batch_shared_context (pid : ProjectId) (dests : List DestFn)
    (auth : Option String) (batch : SegmentBatch) (now1 now2 : Nat → Nat)
    (fresh : Nat → String) (c : List (String × String)) (hc : batch.context = some c) :
    ∀ p ∈ (Segment.handleBatch pid dests auth batch now1 now2 fresh).2,
      p.2.context = some c := by
  intro p hp
  unfold Segment.handleBatch at hp
  match auth with
  | none => simp at hp
  | some writeKey =>
    simp only at hp
    by_cases hpid : pid writeKey = ""
    · simp [hpid] at hp
    · simp only [hpid, if_neg] at hp
      rw [← hc]
      exact Segment.batchLoop_trace_context dests writeKey (pid writeKey) batch.context
        now1 now2 fresh 0 batch.messages p (by simpa [hpid] using hp)

/-- Witness for C7: a batch with shared context [("source","web")] holding a
message whose own context is [("own","x")]; the single successful destination
receives the event with the batch's context, not the message's own. -/
theorem segment_batch_shared_context_witness :
    (Segment.sendNormalize 1 2 "u"
        (Segment.mkBatchEvent "wk" "proj" (some [("source", "web")])
          { context := some [("own", "x")] })).context = some [("source", "web")] :=
  segment_batch_shared_context (fun _ => "proj") [fun _ => none] (some "wk")
    { context := some [("source", "web")], messages := [{ context := some [("own", "x")] }] }
    (fun _ => 1) (fun _ => 2) (fun _ => "u") [("source", "web")] rfl
    (0, Segment.sendNormalize 1 2 "u"
      (Segment.mkBatchEvent "wk" "proj" (some [("source", "web")])
        { context := some [("own", "x")] }))
    (by decide)

/-- C9: the batch handler assigns the batch-level context to every contained
event unconditionally — every dispatched event's context equals the batch's
context even when the batch carries none (`none` = nil map), and the event
constructed for each contained message discards the message's own context
entirely, so a per-event context supplied inside a batch is never
preserved. -/
theorem segment_batch_context_overwrites (pid : ProjectId) (dests : List DestFn)
    (auth : Option String) (batch : SegmentBatch) (now1 now2 : Nat → Nat)
    (fresh : Nat → String) :
    (∀ p ∈ (Segment.handleBatch pid dests auth batch now1 now2 fresh).2,
      p.2.context = batch.context) ∧
    ∀ (writeKey projectId : String) (m : SegmentMessage),
      (Segment.mkBatchEvent writeKey projectId batch.context m).context = batch.context := by
  constructor
  · intro p hp
    unfold Segment.handleBatch at hp
    match auth with
    | none => simp at hp
    | some writeKey =>
      simp only at hp
      by_cases hpid : pid writeKey = ""
      · simp [hpid] at hp
      · exact Segment.batchLoop_trace_context dests writeKey (pid writeKey) batch.context
          now1 now2 fresh 0 batch.messages p (by simpa [hpid] using hp)
  · intro writeKey projectId m
    rfl

/-- Witness for C9: a batch with no shared context holding a message that
supplies its own context; the event passed to the destination has context
`none` — the per-event context is dropped. -/
theorem segment_batch_context_overwrites_witness :
    (Segment.sendNormalize 1 2 "u"
        (Segment.mkBatchEvent "wk" "proj" none { context := some [("own", "x")] })).context
      = none :=
  (segment_batch_context_overwrites (fun _ => "proj") [fun _ => none] (some "wk")
    { context := none, messages := [{ context := some [("own", "x")] }] }
    (fun _ => 1) (fun _ => 2) (fun _ => "u")).1
    (0, Segment.sendNormalize 1 2 "u"
      (Segment.mkBatchEvent "wk" "proj" none { context := some [("own", "x")] }))
    (by decide)

/-- C8: a request whose write key resolves to an empty project id is rejected
with a client-side error (400 for a single event, 401 for a batch) before any
destination's `Send` is invoked: the handler's dispatch trace is empty. -/
theorem segment_empty_project_rejected (pid : ProjectId) (dests : List DestFn)
    (event : SegmentEvent) (batch : SegmentBatch) (now1 now2 : Nat)
    (nows1 nows2 : Nat → Nat) (fresh : String) (freshes : Nat → String) (wk : String)
    (hev : pid event.writeKey = "") (hwk : pid wk = "") :
    Segment.handleEvent pid dests event now1 now2 fresh = (.badRequest, []) ∧
    Segment.handleBatch pid dests (some wk) batch nows1 nows2 freshes = (.unauthorized, []) ∧
    HttpStatus.badRequest.isClientError = true ∧
    HttpStatus.unauthorized.isClientError = true := by
  refine ⟨?_, ?_, rfl, rfl⟩
  · unfold Segment.handleEvent
    simp [hev]
  · unfold Segment.handleBatch
    simp [hwk]

/-- Witness for C8: a lookup that resolves every write key to the empty
string, with a destination that would fail if invoked; both handlers reject
with a 4xx and the dispatch trace is empty. -/
theorem segment_empty_project_rejected_witness :
    Segment.handleEvent (fun _ => "") [fun _ => some "sinkerr"]
        { writeKey := "wk" } 1 2 "u" = (.badRequest, []) ∧
    Segment.handleBatch (fun _ => "") [fun _ => some "sinkerr"] (some "wk")
        { messages := [{}] } (fun _ => 1) (fun _ => 2) (fun _ => "u")
      = (.unauthorized, []) := by
  have h := segment_empty_project_rejected (fun _ => "") [fun _ => some "sinkerr"]
    { writeKey := "wk" } { messages := [{}] } 1 2 (fun _ => 1) (fun _ => 2)
    "u" (fun _ => "u") "wk" rfl rfl
  exact ⟨h.1, h.2.1⟩

namespace Delivery

/-- The `BatchSize` clamp in `NewDelivery` (delivery source): a configured
value ≤ 0 or > 500 becomes 500. -/
def clampBatchSize (n : Int) : Int :=
  if n ≤ 0 ∨ n > 500 then 500 else n

/-- One arrival the `select` in `Delivery.Process` can wake on while running:
a message received from `d.messages` (already JSON-marshalled — marshalling
of the opaque message is modelled as the identity on its serialized form), or
the flush-interval timer elapsing.  Context cancellation ends the loop and is
modelled by `drain` below. -/
inductive LoopInput where
  | msg (data : String)
  | timer
  deriving Repr, DecidableEq

/-- The record stored for a received message:
`firehose.Record{Data: []byte(string(data) + "\n")}` — the serialization with
a newline appended. -/
def record (data : String) : String := data ++ "\n"

/-- The loop state of `Delivery.Process`: `buf` is `records[:i]` (the
in-progress batch) and `flushes` the batches passed to `send` so far by the
running loop. -/
structure LoopState where
  buf : List String := []
  flushes : List (List String) := []
  deriving Repr, DecidableEq

/-- One iteration of the `Delivery.Process` loop body on a non-cancellation
arrival: a message is appended to `records` and the batch is sent when
`i == d.size`; the timer sets `flush` only when `i > 0`, sending the current
partial batch. -/
def step (size : Nat) (s : LoopState) (inp : LoopInput) : LoopState :=
  match inp with
  | .msg d =>
    let buf := s.buf ++ [record d]
    if buf.length = size then { buf := [], flushes := s.flushes ++ [buf] }
    else { s with buf := buf }
  | .timer =>
    if s.buf.length > 0 then { buf := [], flushes := s.flushes ++ [s.buf] }
    else s

/-- The cancellation branch of `Delivery.Process`: `return send(i)` — one
final flush of the remaining records; `send(0)` logs "Nothing to send" and
delivers nothing. -/
def drain (s : LoopState) : List (List String) :=
  if s.buf.isEmpty then s.flushes else s.flushes ++ [s.buf]

/-- `Delivery.Process` run over a finite schedule of arrivals followed by
context cancellation: the list of flushed batches, in order. -/
def processRun (size : Nat) (inputs : List LoopInput) : List (List String) :=
  drain (inputs.foldl (step size) {})

end Delivery

/-- C2: with batch capacity 3, seven messages accepted back-to-back with no
timer firing produce exactly two capacity-triggered flushes of 3 records
each, leaving one record buffered, and the final drain flushes exactly that
remaining record; in general one loop iteration triggers a flush exactly when
a message fills the buffer to capacity or the flush-interval timer fires with
a non-empty buffer. -/
theorem delivery_flush_pattern :
    ((([.msg "E1", .msg "E2", .msg "E3", .msg "E4", .msg "E5", .msg "E6", .msg "E7"] :
        List Delivery.LoopInput).foldl (Delivery.step 3) {}).flushes =
      [[Delivery.record "E1", Delivery.record "E2", Delivery.record "E3"],
       [Delivery.record "E4", Delivery.record "E5", Delivery.record "E6"]] ∧
     (([.msg "E1", .msg "E2", .msg "E3", .msg "E4", .msg "E5", .msg "E6", .msg "E7"] :
        List Delivery.LoopInput).foldl (Delivery.step 3) {}).buf = [Delivery.record "E7"] ∧
     Delivery.processRun 3
        [.msg "E1", .msg "E2", .msg "E3", .msg "E4", .msg "E5", .msg "E6", .msg "E7"] =
      [[Delivery.record "E1", Delivery.record "E2", Delivery.record "E3"],
       [Delivery.record "E4", Delivery.record "E5", Delivery.record "E6"],
       [Delivery.record "E7"]]) ∧
    ∀ (size : Nat) (s : Delivery.LoopState) (inp : Delivery.LoopInput), 0 < size →
      ((Delivery.step size s inp).flushes ≠ s.flushes ↔
        (∃ d, inp = .msg d ∧ s.buf.length + 1 = size) ∨
        (inp = .timer ∧ s.buf ≠ [])) := by
  constructor
  · refine ⟨by decide, by decide, by decide⟩
  · intro size s inp hsize
    cases inp with
    | msg d =>
      by_cases hlen : s.buf.length + 1 = size
      · simp only [Delivery.step, Delivery.record]
        rw [if_pos (by simpa using hlen)]
        constructor
        · intro _
          exact Or.inl ⟨d, rfl, hlen⟩
        · intro _ h
          have := congrArg List.length h
          simp at this
      · simp only [Delivery.step, Delivery.record]
        rw [if_neg (by simpa using hlen)]
        simp only [ne_eq, not_true_eq_false, false_iff, not_or]
        constructor
        · rintro ⟨d', hd', hl⟩
          exact hlen hl
        · rintro ⟨h, _⟩
          cases h
    | timer =>
      by_cases hbuf : s.buf = []
      · simp [Delivery.step, hbuf]
      · have hpos : s.buf.length > 0 := List.length_pos.mpr hbuf
        simp only [Delivery.step, if_pos hpos]
        constructor
        · intro _
          refine Or.inr ⟨by trivial, hbuf⟩
        · intro _ h
          have := congrArg List.length h
          simp at this

/-- Witness for C2: at capacity 3, a third message arriving with two records
buffered triggers a flush (the iff instantiated at a concrete state). -/
theorem delivery_flush_pattern_witness :
    (Delivery.step 3 { buf := [Delivery.record "E1", Delivery.record "E2"], flushes := [] }
      (.msg "E3")).flushes ≠
      (Delivery.LoopState.flushes
        { buf := [Delivery.record "E1", Delivery.record "E2"], flushes := [] }) :=
  (delivery_flush_pattern.2 3
    { buf := [Delivery.record "E1", Delivery.record "E2"], flushes := [] }
    (.msg "E3") (by decide)).mpr (Or.inl ⟨"E3", rfl, by decide⟩)

/-- C6: when cancellation fires while `n > 0` records are buffered, the
`Delivery.Process` loop performs exactly one additional flush containing
exactly those `n` records and returns: the drained flush list is the running
flush list extended by the buffered batch alone. -/
theorem delivery_drain_flushes_remainder (size : Nat) (inputs : List Delivery.LoopInput)
    (h : (inputs.foldl (Delivery.step size) {}).buf ≠ []) :
    Delivery.processRun size inputs =
      (inputs.foldl (Delivery.step size) {}).flushes ++
        [(inputs.foldl (Delivery.step size) {}).buf] ∧
    (Delivery.processRun size inputs).length =
      (inputs.foldl (Delivery.step size) {}).flushes.length + 1 := by
  have hne : ((inputs.foldl (Delivery.step size) {}).buf.isEmpty) = false := by
    simpa [List.isEmpty_iff] using h
  unfold Delivery.processRun Delivery.drain
  rw [hne]
  simp

/-- Witness for C6: at capacity 3, two messages arrive and cancellation fires
with both still buffered; the drain is a single flush of exactly those 2. -/
theorem delivery_drain_flushes_remainder_witness :
    Delivery.processRun 3 [.msg "a", .msg "b"] =
      [[Delivery.record "a", Delivery.record "b"]] := by
  have h := delivery_drain_flushes_remainder 3 [.msg "a", .msg "b"] (by decide)
  rw [h.1]
  decide

namespace Delivery

/-- The scheduler's resolution of the `select` in `Delivery.Send` once the
message channel exists: either the channel handoff proceeds or the request
context is done first (with `ctx.Err()` as the error). -/
inductive SelectOutcome where
  | enqueued
  | ctxDone (e : GoErr)
  deriving Repr, DecidableEq

/-- The `Delivery` fields `Send` reads: the stream name, the endpoint, and
whether `Process` has created `d.messages` yet (the channel is nil until the
run loop makes it). -/
structure SendState where
  streamName : String
  endpoint : String
  chanCreated : Bool
  deriving Repr, DecidableEq

/-- The error `Delivery.Send` returns while `d.messages == nil`:
`fmt.Errorf("Delivery destination not ready, check stream %q exists at %s", ...)`. -/
def notReadyErr (d : SendState) : GoErr :=
  "Delivery destination not ready, check stream \"" ++ d.streamName ++
    "\" exists at " ++ d.endpoint

/-- `Delivery.Send` (delivery source): a nil `d.messages` returns the
not-ready error at once; otherwise the select either enqueues the message
(nil result) or returns the context's error. -/
def Send (d : SendState) (sel : SelectOutcome) : Option GoErr :=
  if d.chanCreated = false then some (notReadyErr d)
  else
    match sel with
    | .enqueued => none
    | .ctxDone e => some e

end Delivery

/-- C10: if `Delivery.Send` is called before `Process` has created the
message channel, it returns the non-nil "destination not ready" error
immediately — the result is the same for every scheduler resolution of the
select, i.e. no blocking — and a dispatcher fan-out reaching that delivery
after only successful destinations aborts with exactly that error, invoking
no later destination. -/
theorem delivery_send_not_ready (d : Delivery.SendState) (sel sel2 : Delivery.SelectOutcome)
    (pre : List DestFn) (post : List DestFn) (now1 now2 : Nat) (fresh : String)
    (m : SegmentEvent) (hnil : d.chanCreated = false)
    (hpre : ∀ g ∈ pre, g (Segment.sendNormalize now1 now2 fresh m) = none) :
    Delivery.Send d sel = some (Delivery.notReadyErr d) ∧
    Delivery.Send d sel = Delivery.Send d sel2 ∧
    Segment.send (pre ++ (fun _ => Delivery.Send d sel) :: post) now1 now2 fresh m =
      (some (Delivery.notReadyErr d), (List.range (pre.length + 1)).map
        (fun j => (j, Segment.sendNormalize now1 now2 fresh m))) := by
  have hsend : ∀ s, Delivery.Send d s = some (Delivery.notReadyErr d) := by
    intro s
    unfold Delivery.Send
    rw [if_pos hnil]
  refine ⟨hsend sel, (hsend sel).trans (hsend sel2).symm, ?_⟩
  unfold Segment.send
  rw [Segment.fanoutFrom_append_fail pre _ post _ 0 (Delivery.notReadyErr d) hpre (hsend sel)]
  simp

/-- Witness for C10: a delivery for stream "s1" at endpoint "ep" whose
channel is not yet created, placed after one succeeding destination; the
fan-out returns the not-ready error and never reaches the third
destination. -/
theorem delivery_send_not_ready_witness :
    Segment.send [fun _ => none,
        fun _ => Delivery.Send { streamName := "s1", endpoint := "ep", chanCreated := false }
          .enqueued,
        fun _ => some "later"] 1 2 "u" {} =
      (some (Delivery.notReadyErr { streamName := "s1", endpoint := "ep", chanCreated := false }),
        [(0, Segment.sendNormalize 1 2 "u" {}), (1, Segment.sendNormalize 1 2 "u" {})]) := by
  have h := delivery_send_not_ready
    { streamName := "s1", endpoint := "ep", chanCreated := false } .enqueued (.ctxDone "cancelled")
    [fun _ => none] [fun _ => some "later"] 1 2 "u" {} rfl
    (by intro g hg; simp at hg; subst hg; rfl)
  simpa [List.range_succ] using h.2.2

namespace Forwarder

/-- `Forwarder.Send` (forwarder source):
`select { case f.messages <- message: default: skipCounter++ }; return nil`.
`f.messages` is created by `make(chan interface{})` — an unbuffered channel —
so the non-blocking send succeeds exactly when the `Process` loop's receive
is pending at that moment; `recvReady` is that scheduler fact.  The context
and message are not consulted at all.  Returns (the Go result, whether the
message was handed off, the new skipped counter). -/
def Send (recvReady : Bool) (skipped : Nat) : Option GoErr × Bool × Nat :=
  if recvReady then (none, true, skipped) else (none, false, skipped + 1)

/-- A run of consecutive `Forwarder.Send` calls under a schedule of
receiver-readiness facts, accumulating (delivered count, skipped counter). -/
def submitAll (ready : List Bool) (delivered skipped : Nat) : Nat × Nat :=
  match ready with
  | [] => (delivered, skipped)
  | r :: rest =>
    let s := Send r skipped
    submitAll rest (if s.2.1 then delivered + 1 else delivered) s.2.2

end Forwarder

/-- C3: `Forwarder.Send` returns nil for every receiver state and skipped
count (the caller is never blocked or failed — the select has a default
branch and the context is never consulted); when the handoff cannot proceed
the skipped counter is incremented instead of delivering.  Submitting two
events in immediate succession with the run loop initially parked at its
receive — so the first is handed off and the loop is still forwarding it,
hence not receiving, when the second arrives — delivers exactly one event and
counts exactly one as skipped. -/
theorem forwarder_send_never_blocks :
    (∀ (recvReady : Bool) (skipped : Nat), (Forwarder.Send recvReady skipped).1 = none) ∧
    (∀ (skipped : Nat), (Forwarder.Send false skipped).2.2 = skipped + 1 ∧
      (Forwarder.Send false skipped).2.1 = false) ∧
    Forwarder.submitAll [true, false] 0 0 = (1, 1) := by
  refine ⟨?_, ?_, by decide⟩
  · intro r s
    cases r <;> rfl
  · intro s
    exact ⟨rfl, rfl⟩

namespace Segment

/-- `backo.DefaultBacko()` used by `NewSegment` (an external dependency; the
source comment documents it as "100 milliseconds, up to 10 seconds"): base
100 ms, factor 2, no jitter, capped at 10 s.  The sleep before retry `i+1`
is `Duration(i)`, in milliseconds here. -/
def backoDurationMs (i : Nat) : Nat := min (100 * 2 ^ i) 10000

/-- The retry loop of the first `Segment.Run` variant (segment.go):
`for i := 0; i < s.backoRetry; i++ { if err = dest.Process(ctx); err == nil { break }; s.backo.Sleep(i) }`.
`process` gives each attempt's result (`none` = nil error), `i` the next
attempt index and the fuel the remaining iterations; returns the value of
`err` after the loop together with the list of attempt indices performed. -/
def retryLoop (process : Nat → Option GoErr) (i : Nat) : Nat → Option GoErr × List Nat
  | 0 => (none, [])
  | 1 =>
    match process i with
    | none => (none, [i])
    | some e => (some e, [i])
  | fuel + 2 =>
    match process i with
    | none => (none, [i])
    | some _ =>
      let r := retryLoop process (i + 1) (fuel + 1)
      (r.1, i :: r.2)

/-- How a destination's supervising goroutine in the first `Segment.Run`
variant ends: returning silently (err == nil), or `s.Logger.Fatal(err)` —
which logs the error and terminates the whole process (`os.Exit(1)`). -/
inductive SupOutcome where
  | completed
  | fatalExit (e : GoErr)
  deriving Repr, DecidableEq

/-- One destination's supervision in the first `Segment.Run` variant
(segment.go), with `backoRetry` attempts (10 in `NewSegment`): run the retry
loop, then `if err != nil { s.Logger.Fatal(err) }`. -/
def Run (process : Nat → Option GoErr) (backoRetry : Nat) : SupOutcome :=
  match (retryLoop process 0 backoRetry).1 with
  | none => .completed
  | some e => .fatalExit e

/-- The second `Segment.Run` variant (segment.go, error-channel version):
each destination's `Process` is invoked exactly once and its result is
delivered on the `done` channel; the channel's contents once all goroutines
finish. -/
def RunChan (procs : List (Nat → Option GoErr)) : List (Option GoErr) :=
  procs.map (fun p => p 0)

lemma range_map_add_succ (i n : Nat) :
    (List.range (n + 1)).map (fun x => i + x) =
      i :: (List.range n).map (fun x => i + 1 + x) := by
  have harg : ((fun x => i + x) ∘ Nat.succ) = fun x => i + 1 + x := by
    funext x
    simp only [Function.comp_apply]
    omega
  rw [List.range_succ_eq_map, List.map_cons, List.map_map, harg]
  simp

lemma retryLoop_all_fail (process : Nat → Option GoErr) :
    ∀ fuel i, 0 < fuel → (∀ j, j < fuel → process (i + j) ≠ none) →
      (retryLoop process i fuel).1 = process (i + (fuel - 1)) ∧
      (retryLoop process i fuel).2 = (List.range fuel).map (i + ·) := by
  intro fuel
  induction fuel with
  | zero => intro i h; omega
  | succ f ih =>
    intro i _ hfail
    cases hp : process i with
    | none =>
      exact absurd hp (by simpa using hfail 0 (Nat.succ_pos f))
    | some e =>
      cases f with
      | zero =>
        simp [retryLoop, hp, List.range_succ]
      | succ f2 =>
        have hfail2 : ∀ j, j < f2 + 1 → process (i + 1 + j) ≠ none := by
          intro j hj
          have h2 := hfail (j + 1) (by omega)
          rw [show i + (j + 1) = i + 1 + j by omega] at h2
          exact h2
        have hr := ih (i + 1) (Nat.succ_pos f2) hfail2
        simp only [retryLoop, hp]
        constructor
        · rw [hr.1]
          congr 1
          omega
        · rw [hr.2, range_map_add_succ i (f2 + 1)]
  
lemma retryLoop_first_success (process : Nat → Option GoErr) :
    ∀ k i fuel, k < fuel → process (i + k) = none →
      (∀ j, j < k → process (i + j) ≠ none) →
      (retryLoop process i fuel).1 = none ∧
      (retryLoop process i fuel).2 = (List.range (k + 1)).map (i + ·) := by
  intro k
  induction k with
  | zero =>
    intro i fuel hk hp _
    have hpi : process i = none := by simpa using hp
    obtain ⟨f, rfl⟩ : ∃ f, fuel = f + 1 := ⟨fuel - 1, by omega⟩
    cases f with
    | zero => simp [retryLoop, hpi, List.range_succ]
    | succ f2 => simp [retryLoop, hpi, List.range_succ]
  | succ k ih =>
    intro i fuel hk hp hj
    cases hpi : process i with
    | none =>
      exact absurd hpi (by simpa using hj 0 (Nat.succ_pos k))
    | some e =>
      obtain ⟨f, rfl⟩ : ∃ f, fuel = f + 2 := ⟨fuel - 2, by omega⟩
      have hp2 : process (i + 1 + k) = none := by
        rw [show i + 1 + k = i + (k + 1) by omega]
        exact hp
      have hj2 : ∀ j, j < k → process (i + 1 + j) ≠ none := by
        intro j hjlt
        have h2 := hj (j + 1) (by omega)
        rw [show i + (j + 1) = i + 1 + j by omega] at h2
        exact h2
      have hr := ih (i + 1) (f + 1) (by omega) hp2 hj2
      simp only [retryLoop, hpi]
      refine ⟨hr.1, ?_⟩
      rw [hr.2, range_map_add_succ i (k + 1)]

end Segment

/-- C4 counterexample: the source has two `Segment.Run` variants and neither
retries-then-reports.  In the retrying variant, a destination whose `Process`
fails on every attempt ends in `fatalExit` — `s.Logger.Fatal(err)`, which
terminates the whole process (`os.Exit(1)`) instead of reporting the error to
the caller.  In the error-channel variant, a destination failing on its first
attempt but succeeding on a second has its first-attempt error reported with
no retry at all — the channel carries the single `Process` result. -/
theorem segment_run_fatal_counterexample :
    Segment.Run (fun _ => some "connect failed") 10 =
      Segment.SupOutcome.fatalExit "connect failed" ∧
    Segment.RunChan [fun i => if i = 0 then some "connect failed" else none] =
      [some "connect failed"] := by
  constructor
  · decide
  · decide

/-- C4 as amended: in the retrying `Segment.Run` variant each destination's
`Process` is retried with exponential backoff — sleep before retry `i+1` is
`min(100·2^i, 10000)` ms, non-decreasing and capped at 10 s — up to 10
attempts, stopping at the first success; after 10 consecutive failures the
final error is logged fatally, terminating the process.  The error-channel
`Segment.Run` variant invokes `Process` exactly once per destination, without
retry, and reports that single result (nil on clean shutdown) to the caller
on the completion channel. -/
theorem segment_run_retry_semantics :
    (∀ (process : Nat → Option GoErr),
      (∀ i, i < 10 → process i ≠ none) →
      ∃ e, process 9 = some e ∧ Segment.Run process 10 = .fatalExit e) ∧
    (∀ (process : Nat → Option GoErr) (k : Nat), k < 10 → process k = none →
      (∀ j, j < k → process j ≠ none) →
      Segment.Run process 10 = .completed ∧
      (Segment.retryLoop process 0 10).2 = List.range (k + 1)) ∧
    (∀ i j : Nat, i ≤ j → Segment.backoDurationMs i ≤ Segment.backoDurationMs j) ∧
    (∀ i : Nat, Segment.backoDurationMs i ≤ 10000) ∧
    Segment.backoDurationMs 0 = 100 ∧
    (∀ (procs : List (Nat → Option GoErr)) (idx : Nat) (h : idx < procs.length),
      (Segment.RunChan procs)[idx]? = some ((procs.get ⟨idx, h⟩) 0)) := by
  refine ⟨?_, ?_, ?_, ?_, by decide, ?_⟩
  · intro process h
    have hfail : ∀ j, j < 10 → process (0 + j) ≠ none := by
      intro j hj
      simpa using h j hj
    have hr := Segment.retryLoop_all_fail process 10 0 (by norm_num) hfail
    obtain ⟨e, he⟩ := Option.ne_none_iff_exists'.mp (h 9 (by norm_num))
    refine ⟨e, he, ?_⟩
    have h9 : process (0 + (10 - 1)) = some e := by simpa using he
    simp [Segment.Run, hr.1, h9]
  · intro process k hk hpk hj
    have hr := Segment.retryLoop_first_success process k 0 10 hk (by simpa using hpk)
      (fun j hjlt => by simpa using hj j hjlt)
    refine ⟨by simp [Segment.Run, hr.1], ?_⟩
    rw [hr.2]
    simp
  · intro i j hij
    unfold Segment.backoDurationMs
    exact min_le_min (Nat.mul_le_mul_left 100 (Nat.pow_le_pow_right (by norm_num) hij)) le_rfl
  · intro i
    exact min_le_right _ _
  · intro procs idx h
    simp [Segment.RunChan, List.getElem?_map, List.getElem?_eq_getElem h]

/-- Witness for the amended C4: a destination failing on attempts 0 and 1
and succeeding on attempt 2 is retried exactly twice — three attempts in all
— and its supervision completes without the fatal exit. -/
theorem segment_run_retry_semantics_witness :
    Segment.Run (fun i => if i < 2 then some "c" else none) 10 =
      Segment.SupOutcome.completed ∧
    (Segment.retryLoop (fun i => if i < 2 then some "c" else none) 0 10).2 = [0, 1, 2] := by
  have h := segment_run_retry_semantics.2.1 (fun i => if i < 2 then some "c" else none) 2
    (by norm_num) (by simp) (by intro j hj; interval_cases j <;> simp)
  refine ⟨h.1, ?_⟩
  rw [h.2]
  decide
